import Mathlib

/-!
Verification of `helper_scripts/convert_halfhour_to_5min.py`.

A shallow embedding of the half-hour-to-5-minute trace conversion script.
Timestamps are modelled as integer minutes since the midnight starting
year 0 of the proleptic Gregorian calendar (pandas timestamps use a fixed
epoch as well; only differences of timestamps matter to every claim, so the
choice of epoch is irrelevant).  Generation values (`gen_mw`) are modelled
as rationals so that linear interpolation is exact.

Each stage of the script's pipeline is one definition below, in the order
the script executes them:

* `pd.to_datetime(df[[Year, Month, Day]])` / column drop → `loadStage`
* `df.melt(id_vars=Date, var_name=HH, value_name=gen_mw)` → `melt`
* `Date + Timedelta(minutes=30*HH)` → `deriveMinutes`
* `sort_values(Datetime)` → `sortByDt`
* `pivot[start:end]` (label slicing, inclusive both ends) → `sliceWindow`
* the `pivot.index[0].minute != 5` back-fill branch → `bfillStep` / `mkBfill`
* `asfreq(5T)` → `asfreq`  (raises on a duplicate index, like `reindex`)
* `interpolate()` (linear, positional; existing samples kept; raises on an
  object-dtype column) → `interpolate`
* `to_csv` → the `Except.ok` result of `run`; `filesWritten` counts output
  files (one on success, zero on an unhandled error).
-/

deriving instance DecidableEq for Except

namespace Convert

/-! Calendar: the part of `pd.to_datetime` the script relies on. -/

/-- Gregorian leap-year rule, as used by `pandas` timestamps. -/
def isLeap (y : Nat) : Bool :=
  (y % 4 == 0 && y % 100 != 0) || y % 400 == 0

/-- Number of days in month `m` (1-based) of year `y`; `0` outside 1..12. -/
def daysInMonth (y m : Nat) : Nat :=
  if m = 2 then (if isLeap y then 29 else 28)
  else if m = 4 ∨ m = 6 ∨ m = 9 ∨ m = 11 then 30
  else if 1 ≤ m ∧ m ≤ 12 then 31
  else 0

/-- Days of year `y` that lie before month `m` (1-based). -/
def daysBeforeMonth (y : Nat) : Nat → Nat
  | 0 => 0
  | m + 1 => if m = 0 then 0 else daysBeforeMonth y m + daysInMonth y m

/-- Total number of days of year `y` (365 or 366). -/
def daysInYear (y : Nat) : Nat := daysBeforeMonth y 13

/-- Days lying before January 1 of year `y`, counted from year 0: 365 per
year plus one per leap year before `y` (closed form, so that the day count
of a realistic year such as 2020 evaluates without deep recursion; the
recurrence `daysBeforeYear_succ` below ties it to `daysInYear`). -/
def daysBeforeYear (y : Nat) : Nat :=
  365 * y + (y + 3) / 4 - (y + 99) / 100 + (y + 399) / 400

/-- The day number of the calendar date `y-m-d` (days since `0000-01-01`).
This is the value `pd.to_datetime` assigns to the `Date` column. -/
def toDays (y m d : Nat) : Nat :=
  daysBeforeYear y + daysBeforeMonth y m + (d - 1)

/-- The dates `pd.to_datetime(df[[Year, Month, Day]])` accepts. -/
def validDate (y m d : Nat) : Prop :=
  1 ≤ m ∧ m ≤ 12 ∧ 1 ≤ d ∧ d ≤ daysInMonth y m

instance (y m d : Nat) : Decidable (validDate y m d) := by
  unfold validDate; infer_instance

/-- Successor of a calendar date (used only to state what "next calendar
day" means in the specification's claims). -/
def nextDay : Nat × Nat × Nat → Nat × Nat × Nat
  | (y, m, d) =>
    if d < daysInMonth y m then (y, m, d + 1)
    else if m < 12 then (y, m + 1, 1)
    else (y + 1, 1, 1)

/-- Value of `toDays` on a packed date triple. -/
def toDays3 (t : Nat × Nat × Nat) : Nat := toDays t.1 t.2.1 t.2.2

theorem daysBeforeMonth_succ (y m : Nat) (h : 1 ≤ m) :
    daysBeforeMonth y (m + 1) = daysBeforeMonth y m + daysInMonth y m := by
  cases m with
  | zero => omega
  | succ k => simp [daysBeforeMonth]

theorem one_le_daysInMonth (y m : Nat) (h1 : 1 ≤ m) (h2 : m ≤ 12) :
    1 ≤ daysInMonth y m := by
  unfold daysInMonth
  split
  · split <;> omega
  · split
    · omega
    · split <;> omega

theorem daysInMonth_twelve (y : Nat) : daysInMonth y 12 = 31 := by
  simp [daysInMonth]

/-- A year has 366 days exactly when it is a leap year. -/
theorem daysInYear_eq (y : Nat) : daysInYear y = if isLeap y then 366 else 365 := by
  have hexp : daysInYear y =
      0 + daysInMonth y 1 + daysInMonth y 2 + daysInMonth y 3 + daysInMonth y 4 +
      daysInMonth y 5 + daysInMonth y 6 + daysInMonth y 7 + daysInMonth y 8 +
      daysInMonth y 9 + daysInMonth y 10 + daysInMonth y 11 + daysInMonth y 12 := rfl
  have h1 : daysInMonth y 1 = 31 := by simp [daysInMonth]
  have h2 : daysInMonth y 2 = if isLeap y then 29 else 28 := by simp [daysInMonth]
  have h3 : daysInMonth y 3 = 31 := by simp [daysInMonth]
  have h4 : daysInMonth y 4 = 30 := by simp [daysInMonth]
  have h5 : daysInMonth y 5 = 31 := by simp [daysInMonth]
  have h6 : daysInMonth y 6 = 30 := by simp [daysInMonth]
  have h7 : daysInMonth y 7 = 31 := by simp [daysInMonth]
  have h8 : daysInMonth y 8 = 31 := by simp [daysInMonth]
  have h9 : daysInMonth y 9 = 30 := by simp [daysInMonth]
  have h10 : daysInMonth y 10 = 31 := by simp [daysInMonth]
  have h11 : daysInMonth y 11 = 30 := by simp [daysInMonth]
  have h12 : daysInMonth y 12 = 31 := by simp [daysInMonth]
  rw [hexp, h1, h2, h3, h4, h5, h6, h7, h8, h9, h10, h11, h12]
  by_cases h : isLeap y <;> simp [h]

set_option maxHeartbeats 1000000 in
/-- The closed-form day count satisfies the year recurrence. -/
theorem daysBeforeYear_succ (y : Nat) :
    daysBeforeYear (y + 1) = daysBeforeYear y + daysInYear y := by
  rw [daysInYear_eq]
  unfold daysBeforeYear
  have hleap : isLeap y = true ↔ (y % 4 = 0 ∧ y % 100 ≠ 0) ∨ y % 400 = 0 := by
    simp [isLeap]
  by_cases h : isLeap y
  · rw [if_pos h]
    rw [hleap] at h
    omega
  · rw [if_neg h]
    rw [hleap] at h
    omega

/-- Advancing one calendar day advances the day count by one. -/
theorem toDays3_nextDay (y m d : Nat) (h : validDate y m d) :
    toDays3 (nextDay (y, m, d)) = toDays y m d + 1 := by
  obtain ⟨hm1, hm12, hd1, hdm⟩ := h
  by_cases hlt : d < daysInMonth y m
  · simp only [nextDay, if_pos hlt, toDays3, toDays]
    omega
  · by_cases hm : m < 12
    · simp only [nextDay, if_neg hlt, if_pos hm, toDays3, toDays]
      rw [daysBeforeMonth_succ y m hm1]
      omega
    · have hm' : m = 12 := by omega
      subst hm'
      simp only [nextDay, if_neg hlt, if_neg hm, toDays3, toDays]
      have e1 : daysBeforeYear (y + 1) = daysBeforeYear y + daysInYear y :=
        daysBeforeYear_succ y
      have e2 : daysInYear y = daysBeforeMonth y 12 + 31 := by
        unfold daysInYear
        rw [daysBeforeMonth_succ y 12 (by omega), daysInMonth_twelve]
      have e3 : daysBeforeMonth (y + 1) 1 = 0 := rfl
      rw [daysInMonth_twelve] at hdm hlt
      omega

/-! Data model.

`Cell` models one CSV cell of a half-hour value column: `read_csv` stores a
rational for numeric text and leaves the column with `object` dtype when any
cell is non-numeric text (modelled by `Cell.text`).  `RawTable` models the
parsed CSV: which of the `Year`/`Month`/`Day` columns are present, the
labels of the remaining (half-hour) value columns in CSV order, and the rows.
Labels are kept as naturals: the script casts them with
`astype("float64")` and multiplies by 30 minutes, which is exact on the
integer labels 1..48 the data uses. -/

inductive Cell where
  | num (q : ℚ)
  | text (s : String)
deriving DecidableEq, Repr

/-- The rational stored in a numeric cell (never applied to `text` cells on
any path that reaches `interpolate`: an object-dtype column raises first). -/
def cellToRat : Cell → ℚ
  | .num q => q
  | .text _ => 0

def Cell.isText : Cell → Bool
  | .num _ => false
  | .text _ => true

structure RawRow where
  year : Nat
  month : Nat
  day : Nat
  vals : List Cell
deriving DecidableEq, Repr

structure RawTable where
  hasYear : Bool
  hasMonth : Bool
  hasDay : Bool
  valueCols : List Nat
  rows : List RawRow
deriving DecidableEq, Repr

/-- A row after `pd.to_datetime` built the `Date` column and the
`Year`/`Month`/`Day` columns were dropped. -/
structure DatedRow where
  date : Nat
  vals : List Cell
deriving DecidableEq, Repr

structure DatedTable where
  valueCols : List Nat
  rows : List DatedRow
deriving DecidableEq, Repr

/-- One long-form row produced by `melt`: `(Date, HH, gen_mw)`. -/
structure LongRow where
  date : Nat
  hh : Nat
  val : Cell
deriving DecidableEq, Repr

/-- The unhandled exceptions the script can die with, in pipeline order:
`FileNotFoundError` from `read_csv`, `KeyError` from
`df[[Year, Month, Day]]`, `ValueError` from `to_datetime` on an invalid
date, `IndexError` from `pivot.index[0]` on an empty year slice,
`ValueError` from `asfreq`'s reindex on a duplicate index, and `TypeError`
from `interpolate` on an object-dtype column. -/
inductive PipeError where
  | fileMissing
  | missingColumn
  | badDate
  | emptySlice
  | dupIndex
  | objectDtype
deriving DecidableEq, Repr

/-- Whether some value cell holds non-numeric text, in which case
`read_csv` gives the melted `gen_mw` column `object` dtype (slicing rows
later never restores a numeric dtype). -/
def hasTextCell (t : RawTable) : Bool :=
  t.rows.any (fun r => r.vals.any Cell.isText)

/-! Pipeline stages. -/

/-- Models `pd.to_datetime(df[[Year, Month, Day]])` plus the column drop: fails if
one of the three columns is absent (`KeyError`) or some row is not a valid
calendar date (`ValueError`); otherwise each row keeps its day number and
its value cells. -/
def loadStage (t : RawTable) : Except PipeError DatedTable :=
  if ¬ (t.hasYear ∧ t.hasMonth ∧ t.hasDay) then .error .missingColumn
  else if ¬ ∀ r ∈ t.rows, validDate r.year r.month r.day then .error .badDate
  else .ok ⟨t.valueCols, t.rows.map (fun r => ⟨toDays r.year r.month r.day, r.vals⟩)⟩

/-- Stack one value column after another (the column-major order of
`pd.melt`): for each `(position, label)` pair, one `LongRow` per input row. -/
def meltCols (rows : List DatedRow) : List (Nat × Nat) → List LongRow
  | [] => []
  | (idx, lab) :: cols =>
      rows.map (fun r => ⟨r.date, lab, r.vals.getD idx (Cell.num 0)⟩) ++ meltCols rows cols

/-- Models `df.melt(id_vars=Date, var_name=HH, value_name=gen_mw)`. -/
def melt (t : DatedTable) : List LongRow :=
  meltCols t.rows t.valueCols.enum

/-- Models `Date + pd.Timedelta(minutes=30 * HH)`, in minutes. -/
def deriveMinutes (date hh : Nat) : Int :=
  1440 * (date : Int) + 30 * (hh : Int)

/-- Keep only `Datetime` and `gen_mw` (`drop(columns=[Date, HH])` plus
`set_index(Datetime)`). -/
def longToTs (r : LongRow) : Int × Cell :=
  (deriveMinutes r.date r.hh, r.val)

/-- Insert one row into a list sorted by timestamp. -/
def insertByDt (a : Int × Cell) : List (Int × Cell) → List (Int × Cell)
  | [] => [a]
  | b :: l => if a.1 ≤ b.1 then a :: b :: l else b :: insertByDt a l

/-- Models `sort_values('Datetime')`.  (`sort_values` leaves the relative order of
equal timestamps unspecified — its default sort is not stable — so any
correct sort models it; every claim below is insensitive to tie order.) -/
def sortByDt : List (Int × Cell) → List (Int × Cell)
  | [] => []
  | a :: l => insertByDt a (sortByDt l)

/-- Minutes of `{year}-01-01 00:05:00`, the lower slice label. -/
def windowStart (year : Nat) : Int := 1440 * (toDays year 1 1 : Int) + 5

/-- Minutes of `{year+1}-01-01 00:00:00`, the upper slice label. -/
def windowEnd (year : Nat) : Int := 1440 * (toDays (year + 1) 1 1 : Int)

/-- Models `pivot[start:end]`: label slicing on the sorted `DatetimeIndex` keeps
exactly the rows whose timestamp lies in the window, inclusive at both
ends. -/
def sliceWindow (year : Nat) (l : List (Int × Cell)) : List (Int × Cell) :=
  l.filter (fun p => decide (windowStart year ≤ p.1 ∧ p.1 ≤ windowEnd year))

/-- The full sorted-and-sliced series the script calls `pivot` after line
`pivot = pivot[start:end]`. -/
def windowOf (dated : DatedTable) (year : Nat) : List (Int × Cell) :=
  sliceWindow year (sortByDt ((melt dated).map longToTs))

/-- Models `pd.date_range(start, stop, freq='5T')`: `start, start+5, ...` up to
`stop` inclusive; empty when `stop < start`. -/
def dateRange (start stop : Int) : List Int :=
  (List.range (if stop < start then 0 else ((stop - start) / 5).toNat + 1)).map
    (fun (k : Nat) => start + 5 * (k : Int))

/-- The synthesized back-fill rows: the 5-minute range from
`{year}-01-01 00:05:00` to (first timestamp − 5 minutes), every row holding
the first real row's `gen_mw` (`pivot.iloc[0, 0]`). -/
def mkBfill (year : Nat) (first : Int × Cell) : List (Int × Cell) :=
  (dateRange (windowStart year) (first.1 - 5)).map (fun t => (t, first.2))

/-- The `if pivot.index[0].minute != 5:` branch: prepend the back-fill rows
(`pd.concat([bfill, pivot])`) exactly when the first timestamp's minute
component differs from 5. -/
def bfillStep (year : Nat) (first : Int × Cell) (window : List (Int × Cell)) :
    List (Int × Cell) :=
  if first.1 % 60 ≠ 5 then mkBfill year first ++ window else window

/-- First value stored at timestamp `t` (how `reindex` reads a value off the
old index; the duplicate-index case is rejected before lookup happens). -/
def lookupT (t : Int) : List (Int × α) → Option α
  | [] => none
  | (s, v) :: l => if s = t then some v else lookupT t l

/-- Timestamp of the last row (`pivot.index[-1]`); `0` on the empty list,
which no caller reaches. -/
def lastT : List (Int × α) → Int
  | [] => 0
  | [(t, _)] => t
  | _ :: l => lastT l

/-- Models `asfreq('5T')`: reindex onto the 5-minute grid running from the first to
the last existing timestamp; grid points not present in the old index get a
missing value (`NaN`, modelled as `none`). -/
def asfreq : List (Int × α) → List (Int × Option α)
  | [] => []
  | (t₀, v₀) :: l =>
      (dateRange t₀ (lastT ((t₀, v₀) :: l))).map
        (fun t => (t, lookupT t ((t₀, v₀) :: l)))

/-- Index of the nearest non-missing value at or before position `i`. -/
def prevKnown (vs : List (Option ℚ)) : Nat → Option (Nat × ℚ)
  | 0 => match vs.get? 0 with
         | some (some v) => some (0, v)
         | _ => none
  | i + 1 => match vs.get? (i + 1) with
             | some (some v) => some (i + 1, v)
             | _ => prevKnown vs i

/-- Position and value of the first non-missing entry of a list. -/
def firstKnown : List (Option ℚ) → Option (Nat × ℚ)
  | [] => none
  | some v :: _ => some (0, v)
  | none :: l => (firstKnown l).map (fun p => (p.1 + 1, p.2))

/-- Index of the nearest non-missing value at or after position `i`. -/
def nextKnown (vs : List (Option ℚ)) (i : Nat) : Option (Nat × ℚ) :=
  (firstKnown (vs.drop i)).map (fun p => (i + p.1, p.2))

/-- Value `DataFrame.interpolate()` (method `linear`: positional, which on
the uniform 5-minute grid equals time interpolation) leaves at position `i`:
a present value is kept; a missing one between two known neighbours is
linearly interpolated; a missing one after the last known value is padded
forward with it; a missing one before the first known value stays `NaN`. -/
def interpAt (vs : List (Option ℚ)) (i : Nat) : Option ℚ :=
  match vs.get? i with
  | some (some v) => some v
  | _ =>
      match prevKnown vs i, nextKnown vs i with
      | some (j, a), some (k, b) => some (a + (b - a) * ((i : ℚ) - j) / ((k : ℚ) - j))
      | some (_, a), none => some a
      | none, _ => none

/-- Models `resampled.interpolate()`, applied to each position of the reindexed
series; timestamps are untouched. -/
def interpolate (xs : List (Int × Option ℚ)) : List (Int × Option ℚ) :=
  (List.range xs.length).map
    (fun i => ((xs.getD i (0, none)).1, interpAt (xs.map Prod.snd) i))

/-- The whole `__main__` body, from `pd.read_csv(args.path)` (`none` models
a missing input file) to the value written by `to_csv`.  Each `match`/`if`
mirrors one line of the script, in source order; any raised exception
short-circuits the rest of the pipeline (the script installs no handler). -/
def run (file : Option RawTable) (year : Nat) :
    Except PipeError (List (Int × Option ℚ)) :=
  match file with
  | none => .error .fileMissing
  | some tbl =>
      match loadStage tbl with
      | .error e => .error e
      | .ok dated =>
          match windowOf dated year with
          | [] => .error .emptySlice
          | first :: rest =>
              if ¬ ((bfillStep year first (first :: rest)).map Prod.fst).Nodup then
                .error .dupIndex
              else if hasTextCell tbl then .error .objectDtype
              else .ok (interpolate ((asfreq (bfillStep year first (first :: rest))).map
                     (fun p => (p.1, p.2.map cellToRat))))

/-- Number of output files a run writes: `to_csv` is the script's last
statement, so exactly one file on success and none after an unhandled
exception. -/
def filesWritten (r : Except PipeError (List (Int × Option ℚ))) : Nat :=
  match r with
  | .ok _ => 1
  | .error _ => 0

/-! Command-line argument parsing, the script's first function. -/

/-- What each `parser.add_argument` call declares. -/
structure ArgSpec where
  name : String
  required : Bool
deriving DecidableEq, Repr

/-- Models `parser.add_argument('-path', type=str, required=True, ...)`. -/
def pathArg : ArgSpec := ⟨"-path", true⟩

/-- Models `parser.add_argument('-year', type=int, required=True, ...)`. -/
def yearArg : ArgSpec := ⟨"-year", true⟩

structure ParsedArgs where
  path : String
  year : Int
deriving DecidableEq, Repr

/-- The value following flag `k` on the command line, if any. -/
def lookupArg (k : String) : List (String × String) → Option String
  | [] => none
  | (f, v) :: l => if f = k then some v else lookupArg k l

/-- Behaviour of `argparse` for the two declared arguments: a `required=True`
argument that is absent aborts parsing; `-year` is converted with
`type=int`. -/
def parseArgs (argv : List (String × String)) : Except String ParsedArgs :=
  match lookupArg pathArg.name argv with
  | none => .error "the following arguments are required: -path"
  | some p =>
      match lookupArg yearArg.name argv with
      | none => .error "the following arguments are required: -year"
      | some y =>
          match y.toInt? with
          | none => .error "argument -year: invalid int value"
          | some n => .ok ⟨p, n⟩

/-! Lemmas about the sorting stage. -/

theorem perm_insertByDt (a : Int × Cell) (l : List (Int × Cell)) :
    List.Perm (insertByDt a l) (a :: l) := by
  induction l with
  | nil => exact List.Perm.refl _
  | cons b l ih =>
      unfold insertByDt
      split
      · exact List.Perm.refl _
      · exact (ih.cons b).trans (List.Perm.swap a b l)

theorem perm_sortByDt (l : List (Int × Cell)) : List.Perm (sortByDt l) l := by
  induction l with
  | nil => exact List.Perm.refl _
  | cons a l ih => exact (perm_insertByDt a (sortByDt l)).trans (ih.cons a)

theorem mem_sortByDt {p : Int × Cell} {l : List (Int × Cell)} :
    p ∈ sortByDt l ↔ p ∈ l :=
  (perm_sortByDt l).mem_iff

theorem pairwise_insertByDt (a : Int × Cell) {l : List (Int × Cell)}
    (h : l.Pairwise (fun p q => p.1 ≤ q.1)) :
    (insertByDt a l).Pairwise (fun p q => p.1 ≤ q.1) := by
  induction l with
  | nil => simp [insertByDt]
  | cons b l ih =>
      unfold insertByDt
      split
      · rename_i hab
        refine List.Pairwise.cons ?_ h
        intro q hq
        rcases List.mem_cons.mp hq with rfl | hq
        · exact hab
        · exact le_trans hab (List.rel_of_pairwise_cons h hq)
      · rename_i hab
        refine List.Pairwise.cons ?_ (ih (List.Pairwise.of_cons h))
        intro q hq
        have hq' : q = a ∨ q ∈ l :=
          List.mem_cons.mp ((perm_insertByDt a l).mem_iff.mp hq)
        rcases hq' with heq | hql
        · subst heq; omega
        · exact List.rel_of_pairwise_cons h hql

theorem pairwise_sortByDt (l : List (Int × Cell)) :
    (sortByDt l).Pairwise (fun p q => p.1 ≤ q.1) := by
  induction l with
  | nil => exact List.Pairwise.nil
  | cons a l ih => exact pairwise_insertByDt a ih

/-! Lemmas about `dateRange`. -/

theorem length_dateRange (a b : Int) :
    (dateRange a b).length = if b < a then 0 else ((b - a) / 5).toNat + 1 := by
  simp [dateRange]

theorem dateRange_get? {a b : Int} {k : Nat}
    (hk : k < (if b < a then 0 else ((b - a) / 5).toNat + 1)) :
    (dateRange a b).get? k = some (a + 5 * k) := by
  unfold dateRange
  rw [List.get?_map, List.get?_range hk]
  rfl

theorem mem_dateRange {t a b : Int} (h : t ∈ dateRange a b) :
    a ≤ t ∧ t ≤ b := by
  unfold dateRange at h
  rcases List.mem_map.mp h with ⟨k, hk, rfl⟩
  rw [List.mem_range] at hk
  split at hk
  · omega
  · rename_i hba
    have h5 : 5 * ((b - a) / 5) + (b - a) % 5 = b - a := Int.ediv_add_emod (b - a) 5
    have h5a : 0 ≤ (b - a) % 5 := Int.emod_nonneg _ (by norm_num)
    have h5b : (b - a) % 5 < 5 := Int.emod_lt_of_pos _ (by norm_num)
    omega

theorem mem_dateRange_of {t a b : Int} (hab : a ≤ t) (htb : t ≤ b)
    (hdvd : (5 : Int) ∣ (t - a)) : t ∈ dateRange a b := by
  obtain ⟨j, hj⟩ := hdvd
  unfold dateRange
  rw [List.mem_map]
  refine ⟨j.toNat, ?_, ?_⟩
  · rw [List.mem_range]
    split
    · omega
    · rename_i hba
      have h5 : 5 * ((b - a) / 5) + (b - a) % 5 = b - a := Int.ediv_add_emod (b - a) 5
      have h5a : 0 ≤ (b - a) % 5 := Int.emod_nonneg _ (by norm_num)
      have h5b : (b - a) % 5 < 5 := Int.emod_lt_of_pos _ (by norm_num)
      omega
  · omega

theorem dateRange_ne_nil {a b : Int} (h : a ≤ b) : dateRange a b ≠ [] := by
  intro hnil
  have := mem_dateRange_of (le_refl a) h (by simp) (b := b)
  rw [hnil] at this
  exact List.not_mem_nil a this

theorem dateRange_eq_cons {a b : Int} (h : a ≤ b) :
    dateRange a b = a :: (dateRange a b).tail := by
  have h0 : (dateRange a b).get? 0 = some (a + 5 * (0 : Nat)) :=
    dateRange_get? (by split <;> omega)
  cases hl : dateRange a b with
  | nil => exact absurd hl (dateRange_ne_nil h)
  | cons x tl =>
      rw [hl] at h0
      simp at h0
      simp [← h0]

/-! Lemmas about `lookupT` and `lastT`. -/

theorem lookupT_append_left {t : Int} {l₁ l₂ : List (Int × α)} {v : α}
    (h : lookupT t l₁ = some v) : lookupT t (l₁ ++ l₂) = some v := by
  induction l₁ with
  | nil => simp [lookupT] at h
  | cons p l ih =>
      obtain ⟨s, w⟩ := p
      simp only [List.cons_append, lookupT] at h ⊢
      split at h
      · rename_i hs
        rw [if_pos hs]
        exact h
      · rename_i hs
        rw [if_neg hs]
        exact ih h

theorem lookupT_map_const {t : Int} {ts : List Int} {c : α} (h : t ∈ ts) :
    lookupT t (ts.map (fun s => (s, c))) = some c := by
  induction ts with
  | nil => cases h
  | cons s ts ih =>
      rcases List.mem_cons.mp h with rfl | h
      · simp [lookupT]
      · by_cases hst : s = t
        · simp [lookupT, hst]
        · simp only [List.map_cons, lookupT, if_neg hst]
          exact ih h

theorem lookupT_cons_self {t : Int} {v : α} {l : List (Int × α)} :
    lookupT t ((t, v) :: l) = some v := by
  simp [lookupT]

/-- On a list with pairwise-distinct timestamps the lookup finds the stored
value. -/
theorem lookupT_of_mem {l : List (Int × α)} {t : Int} {v : α}
    (hmem : (t, v) ∈ l) (hdist : l.Pairwise (fun p q => p.1 ≠ q.1)) :
    lookupT t l = some v := by
  induction l with
  | nil => cases hmem
  | cons p l ih =>
      obtain ⟨s, w⟩ := p
      rcases List.mem_cons.mp hmem with heq | hmem'
      · injection heq with h1 h2
        subst h1
        subst h2
        exact lookupT_cons_self
      · have hst : s ≠ t := by
          have := List.rel_of_pairwise_cons hdist hmem'
          simpa using this
        simp only [lookupT, if_neg hst]
        exact ih hmem' (List.Pairwise.of_cons hdist)

theorem lastT_cons_cons (p q : Int × α) (l : List (Int × α)) :
    lastT (p :: q :: l) = lastT (q :: l) := by
  obtain ⟨t, v⟩ := p
  obtain ⟨s, w⟩ := q
  rfl

theorem lastT_mem {l : List (Int × α)} (h : l ≠ []) :
    ∃ p ∈ l, p.1 = lastT l := by
  induction l with
  | nil => exact absurd rfl h
  | cons p l ih =>
      cases l with
      | nil =>
          obtain ⟨t, v⟩ := p
          exact ⟨(t, v), List.mem_singleton_self _, rfl⟩
      | cons q l' =>
          obtain ⟨r, hr, hr'⟩ := ih (List.cons_ne_nil q l')
          exact ⟨r, List.mem_cons_of_mem p hr, by rw [lastT_cons_cons]; exact hr'⟩

theorem le_lastT {l : List (Int × α)} (hsort : l.Pairwise (fun p q => p.1 ≤ q.1))
    {p : Int × α} (hmem : p ∈ l) : p.1 ≤ lastT l := by
  induction l generalizing p with
  | nil => cases hmem
  | cons q l ih =>
      cases l with
      | nil =>
          rcases List.mem_cons.mp hmem with rfl | h
          · obtain ⟨t, v⟩ := p
            exact le_refl _
          · cases h
      | cons r l' =>
          rw [lastT_cons_cons]
          rcases List.mem_cons.mp hmem with rfl | h
          · have hqr : p.1 ≤ r.1 := List.rel_of_pairwise_cons hsort (List.mem_cons_self r l')
            have hr : r.1 ≤ lastT (r :: l') :=
              ih (List.Pairwise.of_cons hsort) (List.mem_cons_self r l')
            exact le_trans hqr hr
          · exact ih (List.Pairwise.of_cons hsort) h

theorem lastT_append_right (l₁ : List (Int × α)) {l₂ : List (Int × α)}
    (h : l₂ ≠ []) : lastT (l₁ ++ l₂) = lastT l₂ := by
  induction l₁ with
  | nil => rfl
  | cons p l ih =>
      rw [List.cons_append]
      cases hl : l ++ l₂ with
      | nil =>
          rcases List.append_eq_nil.mp hl with ⟨-, h2⟩
          exact absurd h2 h
      | cons q tl =>
          rw [lastT_cons_cons, ← hl, ih]

/-! Lemmas about `asfreq` and `interpolate`. -/

theorem asfreq_eq (p : Int × α) (l : List (Int × α)) :
    asfreq (p :: l) =
      (dateRange p.1 (lastT (p :: l))).map (fun t => (t, lookupT t (p :: l))) := by
  obtain ⟨t, v⟩ := p
  rfl

theorem map_fst_asfreq (p : Int × α) (l : List (Int × α)) :
    (asfreq (p :: l)).map Prod.fst = dateRange p.1 (lastT (p :: l)) := by
  rw [asfreq_eq, List.map_map]
  have hid : (Prod.fst ∘ fun t => ((t : Int), lookupT t (p :: l))) = id := rfl
  rw [hid, List.map_id]

theorem length_interpolate (xs : List (Int × Option ℚ)) :
    (interpolate xs).length = xs.length := by
  simp [interpolate]

theorem interpolate_get? {xs : List (Int × Option ℚ)} {i : Nat} (h : i < xs.length) :
    (interpolate xs).get? i =
      some ((xs.getD i (0, none)).1, interpAt (xs.map Prod.snd) i) := by
  unfold interpolate
  rw [List.get?_map, List.get?_range h]
  rfl

theorem map_fst_interpolate (xs : List (Int × Option ℚ)) :
    (interpolate xs).map Prod.fst = xs.map Prod.fst := by
  apply List.ext
  intro n
  rw [List.get?_map, List.get?_map]
  by_cases h : n < xs.length
  · rw [interpolate_get? h, List.get?_eq_get h]
    have hx : xs.getD n (0, none) = xs.get ⟨n, h⟩ := by
      rw [List.getD_eq_get?, List.get?_eq_get h]
      rfl
    rw [hx]
    rfl
  · have h1 : (interpolate xs).get? n = none := by
      rw [List.get?_eq_none, length_interpolate]
      omega
    have h2 : xs.get? n = none := by
      rw [List.get?_eq_none]
      omega
    rw [h1, h2]

theorem interpAt_known {vs : List (Option ℚ)} {i : Nat} {v : ℚ}
    (h : vs.get? i = some (some v)) : interpAt vs i = some v := by
  unfold interpAt
  rw [h]

theorem mem_interpolate_of_known {xs : List (Int × Option ℚ)} {i : Nat} {t : Int}
    {v : ℚ} (h : xs.get? i = some (t, some v)) : (t, some v) ∈ interpolate xs := by
  have hlen : i < xs.length := by
    by_contra hc
    rw [List.get?_eq_none.mpr (by omega)] at h
    cases h
  have hv : (xs.map Prod.snd).get? i = some (some v) := by
    rw [List.get?_map, h]
    rfl
  have hfst : (xs.getD i (0, none)).1 = t := by
    rw [List.getD_eq_get?, h]
    rfl
  have := interpolate_get? hlen
  rw [hfst, interpAt_known hv] at this
  exact List.get?_mem this

theorem prevKnown_isSome {vs : List (Option ℚ)} {v : ℚ}
    (h0 : vs.get? 0 = some (some v)) (i : Nat) :
    (prevKnown vs i).isSome = true := by
  induction i with
  | zero =>
      unfold prevKnown
      rw [h0]
      rfl
  | succ n ih =>
      unfold prevKnown
      cases hv : vs.get? (n + 1) with
      | none => exact ih
      | some o =>
          cases o with
          | none => exact ih
          | some w => rfl

theorem firstKnown_isSome_of_mem {vs : List (Option ℚ)} {v : ℚ} (h : some v ∈ vs) :
    (firstKnown vs).isSome = true := by
  induction vs with
  | nil => cases h
  | cons o l ih =>
      cases o with
      | some w => rfl
      | none =>
          rcases List.mem_cons.mp h with heq | hm
          · simp at heq
          · simpa [firstKnown] using ih hm

theorem nextKnown_isSome {vs : List (Option ℚ)} {i : Nat} {v : ℚ}
    (hmem : some v ∈ vs.drop i) : (nextKnown vs i).isSome = true := by
  unfold nextKnown
  have hs := firstKnown_isSome_of_mem hmem
  cases hf : firstKnown (vs.drop i) with
  | none =>
      rw [hf] at hs
      simp at hs
  | some p => rfl

/-- When the first and last entries are present, interpolation leaves no
missing value at any position. -/
theorem interpAt_isSome {vs : List (Option ℚ)} {v0 vl : ℚ}
    (h0 : vs.get? 0 = some (some v0))
    (hl : vs.get? (vs.length - 1) = some (some vl))
    {i : Nat} (hi : i < vs.length) : (interpAt vs i).isSome = true := by
  unfold interpAt
  cases hv : vs.get? i with
  | none =>
      exfalso
      rw [List.get?_eq_none] at hv
      omega
  | some o =>
      cases o with
      | some w => rfl
      | none =>
          have hp : (prevKnown vs i).isSome = true := prevKnown_isSome h0 i
          have hdrop : some vl ∈ vs.drop i := by
            have hget : (vs.drop i).get? (vs.length - 1 - i) = some (some vl) := by
              rw [List.get?_drop]
              have : i + (vs.length - 1 - i) = vs.length - 1 := by omega
              rw [this]
              exact hl
            exact List.get?_mem hget
          have hn : (nextKnown vs i).isSome = true := nextKnown_isSome hdrop
          obtain ⟨⟨j, a⟩, hj⟩ := Option.isSome_iff_exists.mp hp
          obtain ⟨⟨k, b⟩, hk⟩ := Option.isSome_iff_exists.mp hn
          rw [hj, hk]
          rfl

/-! Facts about rows of the sliced window and the back-fill. -/

/-- Every row of the sliced series has a timestamp that is a whole number of
half hours and lies inside the year window. -/
theorem mem_windowOf {dated : DatedTable} {year : Nat} {p : Int × Cell}
    (h : p ∈ windowOf dated year) :
    (30 : Int) ∣ p.1 ∧ windowStart year ≤ p.1 ∧ p.1 ≤ windowEnd year := by
  unfold windowOf sliceWindow at h
  obtain ⟨hmem1, hbound⟩ := List.mem_filter.mp h
  have hb : windowStart year ≤ p.1 ∧ p.1 ≤ windowEnd year := of_decide_eq_true hbound
  refine ⟨?_, hb.1, hb.2⟩
  have hmem2 : p ∈ (melt dated).map longToTs := mem_sortByDt.mp hmem1
  rcases List.mem_map.mp hmem2 with ⟨r, hr, rfl⟩
  exact ⟨48 * (r.date : Int) + r.hh, by unfold longToTs deriveMinutes; push_cast; ring⟩

theorem pairwise_windowOf (dated : DatedTable) (year : Nat) :
    (windowOf dated year).Pairwise (fun p q => p.1 ≤ q.1) := by
  unfold windowOf sliceWindow
  exact (pairwise_sortByDt _).filter _

theorem mem_bfillStep {year : Nat} {first p : Int × Cell} {w : List (Int × Cell)}
    (h : p ∈ bfillStep year first w) : p ∈ mkBfill year first ∨ p ∈ w := by
  unfold bfillStep at h
  split at h
  · exact List.mem_append.mp h
  · exact Or.inr h

theorem mem_mkBfill {year : Nat} {first p : Int × Cell}
    (h : p ∈ mkBfill year first) :
    windowStart year ≤ p.1 ∧ p.1 ≤ first.1 - 5 ∧ p.2 = first.2 := by
  unfold mkBfill at h
  rcases List.mem_map.mp h with ⟨t, ht, rfl⟩
  have hb := mem_dateRange ht
  exact ⟨hb.1, hb.2, rfl⟩

/-- Arithmetic behind the back-fill branch: a half-hour timestamp at or
after `{year}-01-01 00:05:00` lies at least 25 minutes after it, and the
point 5 minutes before the timestamp sits on the 5-minute grid anchored at
the window start. -/
theorem bfill_arith {year : Nat} {t : Int} (hdvd : (30 : Int) ∣ t)
    (hge : windowStart year ≤ t) :
    windowStart year + 25 ≤ t ∧ (5 : Int) ∣ (t - 5 - windowStart year) := by
  obtain ⟨k, rfl⟩ := hdvd
  unfold windowStart at *
  refine ⟨by omega, ⟨6 * k - 288 * (toDays year 1 1 : Int) - 2, by ring⟩⟩

/-- Unfolding equation of `run` on a present input file. -/
theorem run_some_eq (tbl : RawTable) (year : Nat) :
    run (some tbl) year =
      match loadStage tbl with
      | .error e => .error e
      | .ok dated =>
          match windowOf dated year with
          | [] => .error .emptySlice
          | first :: rest =>
              if ¬ ((bfillStep year first (first :: rest)).map Prod.fst).Nodup then
                .error .dupIndex
              else if hasTextCell tbl then .error .objectDtype
              else .ok (interpolate ((asfreq (bfillStep year first (first :: rest))).map
                     (fun p => (p.1, p.2.map cellToRat)))) := rfl

/-- Success of `run` exposes every intermediate value of the pipeline. -/
theorem run_eq_ok {tbl : RawTable} {year : Nat} {out : List (Int × Option ℚ)}
    (h : run (some tbl) year = .ok out) :
    ∃ dated first rest,
      loadStage tbl = .ok dated ∧
      windowOf dated year = first :: rest ∧
      ((bfillStep year first (first :: rest)).map Prod.fst).Nodup ∧
      hasTextCell tbl = false ∧
      out = interpolate ((asfreq (bfillStep year first (first :: rest))).map
              (fun p => (p.1, p.2.map cellToRat))) := by
  rw [run_some_eq] at h
  split at h
  · cases h
  · rename_i dated hload
    split at h
    · cases h
    · rename_i first rest hwin
      split at h
      · cases h
      · rename_i hnd
        split at h
        · cases h
        · rename_i htx
          injection h with h'
          refine ⟨dated, first, rest, hload, hwin, not_not.mp hnd, ?_, h'.symm⟩
          simpa using htx

/-! Lemmas about `melt` and `loadStage`. -/

theorem length_meltCols (rows : List DatedRow) (cols : List (Nat × Nat)) :
    (meltCols rows cols).length = cols.length * rows.length := by
  induction cols with
  | nil => simp [meltCols]
  | cons c cols ih =>
      obtain ⟨idx, lab⟩ := c
      simp only [meltCols, List.length_append, List.length_map, ih, List.length_cons]
      ring

theorem loadStage_ok {tbl : RawTable} {dated : DatedTable}
    (h : loadStage tbl = .ok dated) :
    dated.valueCols = tbl.valueCols ∧ dated.rows.length = tbl.rows.length := by
  unfold loadStage at h
  split at h
  · cases h
  · split at h
    · cases h
    · injection h with h'
      subst h'
      simp

/-- Injectivity of the derived timestamp on in-range slot indices. -/
theorem deriveMinutes_inj {r s : LongRow}
    (hr : 1 ≤ r.hh ∧ r.hh ≤ 48) (hs : 1 ≤ s.hh ∧ s.hh ≤ 48)
    (h : deriveMinutes r.date r.hh = deriveMinutes s.date s.hh) :
    r.date = s.date ∧ r.hh = s.hh := by
  unfold deriveMinutes at h
  omega

/-! Concrete inputs used by the witness theorems.  Witnesses that only
exercise the model's arithmetic use year 2; the inputs on which a theorem
asserts a successful end-to-end run use 2020, a year whose dates pandas
timestamps represent. -/

/-- One day (year 2, Jan 1) with a single half-hour column `1`. -/
def sampleTable : RawTable :=
  ⟨true, true, true, [1], [⟨2, 1, 1, [Cell.num 10]⟩]⟩

/-- The dated form of `sampleTable` (`toDays 2 1 1 = 731`). -/
def sampleDated : DatedTable := ⟨[1], [⟨731, [Cell.num 10]⟩]⟩

/-- One 2020 day with only the half-hour columns `1` and `2`: value
columns 3..48 of a full trace are absent. -/
def sampleTwoCols : RawTable :=
  ⟨true, true, true, [1, 2], [⟨2020, 1, 1, [Cell.num 10, Cell.num 20]⟩]⟩

/-- One day (2020, Jan 1) with a single half-hour column `1`
(`toDays 2020 1 1 = 737790`). -/
def sampleTable2020 : RawTable :=
  ⟨true, true, true, [1], [⟨2020, 1, 1, [Cell.num 10]⟩]⟩

/-- The full output of `run` on `sampleTable2020` for year 2020 (back-fill
00:05–00:25 at the first real value, then the real 00:30 sample). -/
def sampleOut2020 : List (Int × Option ℚ) :=
  [(1062417605, some 10), (1062417610, some 10), (1062417615, some 10),
   (1062417620, some 10), (1062417625, some 10), (1062417630, some 10)]

/-- An input whose `Year` column is missing. -/
def sampleNoYearCol : RawTable :=
  ⟨false, true, true, [1], [⟨2020, 1, 1, [Cell.num 10]⟩]⟩

/-- An input with an invalid calendar date (February 30, 2020). -/
def sampleBadDate : RawTable := ⟨true, true, true, [1], [⟨2020, 2, 30, [Cell.num 1]⟩]⟩

/-- An input with a non-numeric value cell. -/
def sampleTextCell : RawTable :=
  ⟨true, true, true, [1], [⟨2020, 1, 1, [Cell.text "x"]⟩]⟩

/-- A full 48-column day. -/
def sample48 : RawTable :=
  ⟨true, true, true, (List.range 48).map (fun k => k + 1),
   [⟨2, 1, 1, (List.range 48).map (fun _ => Cell.num 1)⟩]⟩

/-- The dated form of `sample48`. -/
def sampleDated48 : DatedTable :=
  ⟨(List.range 48).map (fun k => k + 1),
   [⟨731, (List.range 48).map (fun _ => Cell.num 1)⟩]⟩

/-! Claim theorems. -/

/-- C1: for every input row and half-hour slot, the derived timestamp equals
`Date + HH × 30` minutes, where `HH` is the 1-based slot index: slot `HH = 1`
yields `Date` at 00:30, and slot `HH = 48` yields the next calendar day at
00:00. -/
theorem datetime_derivation (y m d : Nat) (h : validDate y m d) :
    (∀ hh : Nat, deriveMinutes (toDays y m d) hh
        = 1440 * (toDays y m d : Int) + 30 * (hh : Int))
    ∧ deriveMinutes (toDays y m d) 1 = 1440 * (toDays y m d : Int) + 30
    ∧ deriveMinutes (toDays y m d) 48 = 1440 * (toDays3 (nextDay (y, m, d)) : Int)
    ∧ deriveMinutes (toDays y m d) 48 % 1440 = 0 := by
  refine ⟨fun hh => rfl, by norm_num [deriveMinutes], ?_, ?_⟩
  · rw [toDays3_nextDay y m d h]
    unfold deriveMinutes
    push_cast
    ring
  · unfold deriveMinutes
    omega

/-- Witness for C1 at the valid date 1-01-01. -/
theorem datetime_derivation_sample :
    deriveMinutes (toDays 1 1 1) 1 = 1440 * (toDays 1 1 1 : Int) + 30
    ∧ deriveMinutes (toDays 1 1 1) 48 = 1440 * (toDays3 (nextDay (1, 1, 1)) : Int) :=
  ⟨(datetime_derivation 1 1 1 (by decide)).2.1,
   (datetime_derivation 1 1 1 (by decide)).2.2.1⟩

/-- C6: for every valid input table with `Year`, `Month`, `Day` and exactly
48 half-hour value columns, the unpivot step produces input-row-count × 48
long-form rows. -/
theorem melt_count (tbl : RawTable) (dated : DatedTable)
    (hload : loadStage tbl = .ok dated) (h48 : tbl.valueCols.length = 48) :
    (melt dated).length = tbl.rows.length * 48 := by
  obtain ⟨hcols, hrows⟩ := loadStage_ok hload
  unfold melt
  rw [length_meltCols, List.enum_length, hcols, h48, hrows, Nat.mul_comm]

/-- Witness for C6 on a full 48-column day. -/
theorem melt_count_sample :
    (melt sampleDated48).length = sample48.rows.length * 48 :=
  melt_count sample48 sampleDated48 (by decide) (by decide)

/-- C7: for every input whose `(Date, HH)` pairs are pairwise distinct with
`HH` in 1..48, the sorted sequence of derived timestamps is strictly
increasing, with no duplicates. -/
theorem datetimes_strictly_increasing (l : List LongRow)
    (hdist : l.Pairwise (fun r s => (r.date, r.hh) ≠ (s.date, s.hh)))
    (hbound : ∀ r ∈ l, 1 ≤ r.hh ∧ r.hh ≤ 48) :
    ((sortByDt (l.map longToTs)).map Prod.fst).Pairwise (· < ·) := by
  have h1 : (l.map longToTs).Pairwise (fun p q => p.1 ≠ q.1) := by
    rw [List.pairwise_map]
    refine List.Pairwise.imp_of_mem ?_ hdist
    intro a b ha hb hne heq
    obtain ⟨hd, hh⟩ := deriveMinutes_inj (hbound a ha) (hbound b hb) heq
    exact hne (by simp [hd, hh])
  have h2 : (sortByDt (l.map longToTs)).Pairwise (fun p q => p.1 ≠ q.1) :=
    ((perm_sortByDt (l.map longToTs)).pairwise_iff
      (fun h => Ne.symm h)).mpr h1
  have h3 := pairwise_sortByDt (l.map longToTs)
  have h4 : (sortByDt (l.map longToTs)).Pairwise (fun p q => p.1 < q.1) :=
    (h3.and h2).imp (fun h => lt_of_le_of_ne h.1 h.2)
  exact List.pairwise_map.mpr h4

/-- Witness for C7 on two distinct slots of one day. -/
theorem datetimes_strictly_increasing_sample :
    ((sortByDt ([⟨731, 2, Cell.num 5⟩, ⟨731, 1, Cell.num 4⟩].map longToTs)).map
      Prod.fst).Pairwise (· < ·) :=
  datetimes_strictly_increasing _ (by decide) (by decide)

/-- C9: on every half-hourly input whose filtered series is non-empty, the
first timestamp's minute component is 0 or 30 — never 5 — so the
`minute != 5` test succeeds and the back-fill branch prepends a non-empty
segment. -/
theorem minute_never_five (tbl : RawTable) (year : Nat) (dated : DatedTable)
    (first : Int × Cell) (rest : List (Int × Cell))
    (_hcols : ∀ c ∈ tbl.valueCols, 1 ≤ c ∧ c ≤ 48)
    (_hload : loadStage tbl = .ok dated)
    (hwin : windowOf dated year = first :: rest) :
    (first.1 % 60 = 0 ∨ first.1 % 60 = 30) ∧ first.1 % 60 ≠ 5
    ∧ bfillStep year first (first :: rest) = mkBfill year first ++ (first :: rest)
    ∧ mkBfill year first ≠ [] := by
  have hmem : first ∈ windowOf dated year := by
    rw [hwin]
    exact List.mem_cons_self _ _
  obtain ⟨hdvd, hge, hle⟩ := mem_windowOf hmem
  obtain ⟨h25, hdvd5⟩ := bfill_arith hdvd hge
  obtain ⟨k, hk⟩ := hdvd
  have hmin : first.1 % 60 = 0 ∨ first.1 % 60 = 30 := by omega
  have hmin5 : first.1 % 60 ≠ 5 := by omega
  refine ⟨hmin, hmin5, ?_, ?_⟩
  · unfold bfillStep
    rw [if_pos hmin5]
  · unfold mkBfill
    intro hnil
    rw [List.map_eq_nil] at hnil
    exact dateRange_ne_nil (by omega) hnil

/-- Witness for C9 on `sampleTable` (first in-window timestamp 00:30). -/
theorem minute_never_five_sample :
    ((1052670 : Int) % 60 = 0 ∨ (1052670 : Int) % 60 = 30)
    ∧ (1052670 : Int) % 60 ≠ 5
    ∧ bfillStep 2 (1052670, Cell.num 10) [(1052670, Cell.num 10)]
        = mkBfill 2 (1052670, Cell.num 10) ++ [(1052670, Cell.num 10)]
    ∧ mkBfill 2 (1052670, Cell.num 10) ≠ [] :=
  minute_never_five sampleTable 2 sampleDated (1052670, Cell.num 10) []
    (by decide) (by decide) (by decide)

/-- C10: when the year slice is empty, reading `pivot.index[0]` raises
(`IndexError`) and no output file is written. -/
theorem empty_slice_errors (tbl : RawTable) (year : Nat) (dated : DatedTable)
    (hload : loadStage tbl = .ok dated) (hempty : windowOf dated year = []) :
    run (some tbl) year = .error .emptySlice
    ∧ filesWritten (run (some tbl) year) = 0 := by
  have h : run (some tbl) year = .error .emptySlice := by
    simp only [run_some_eq, hload, hempty]
  exact ⟨h, by rw [h]; rfl⟩

/-- Witness for C10: `sampleTable` holds year-2 data; slicing year 5 is
empty. -/
theorem empty_slice_errors_sample :
    run (some sampleTable) 5 = .error .emptySlice
    ∧ filesWritten (run (some sampleTable) 5) = 0 :=
  empty_slice_errors sampleTable 5 sampleDated (by decide) (by decide)

/-- C8 (amended): a missing input file, a missing `Year`/`Month`/`Day`
column, an invalid calendar date, or non-numeric data in a value column all
abort the run with an unhandled error and no output file; no recovery is
attempted anywhere (every failure propagates to the caller), and a
successful run writes exactly one output file.  (An absent half-hour value
column, by contrast, is not detected: `melt` processes whichever value
columns exist — see the counterexample theorem.) -/
theorem errors_propagate :
    (∀ year : Nat, run none year = .error .fileMissing
        ∧ filesWritten (run none year) = 0)
    ∧ (∀ (tbl : RawTable) (year : Nat),
        ¬ (tbl.hasYear ∧ tbl.hasMonth ∧ tbl.hasDay) →
        run (some tbl) year = .error .missingColumn)
    ∧ (∀ (tbl : RawTable) (year : Nat),
        (tbl.hasYear ∧ tbl.hasMonth ∧ tbl.hasDay) →
        ¬ (∀ r ∈ tbl.rows, validDate r.year r.month r.day) →
        run (some tbl) year = .error .badDate)
    ∧ (∀ (tbl : RawTable) (year : Nat), hasTextCell tbl = true →
        (run (some tbl) year).isOk = false)
    ∧ (∀ (file : Option RawTable) (year : Nat) (e : PipeError),
        run file year = .error e → filesWritten (run file year) = 0)
    ∧ (∀ (file : Option RawTable) (year : Nat) (out : List (Int × Option ℚ)),
        run file year = .ok out → filesWritten (run file year) = 1) := by
  refine ⟨fun year => ⟨rfl, rfl⟩, ?_, ?_, ?_, ?_, ?_⟩
  · intro tbl year hcols
    have hload : loadStage tbl = .error .missingColumn := by
      unfold loadStage
      rw [if_pos hcols]
    simp only [run_some_eq, hload]
  · intro tbl year hcols hdates
    have hload : loadStage tbl = .error .badDate := by
      unfold loadStage
      rw [if_neg (not_not_intro hcols), if_pos hdates]
    simp only [run_some_eq, hload]
  · intro tbl year htx
    rw [run_some_eq]
    split
    · rfl
    · split
      · rfl
      · rename_i first rest hwin
        by_cases hnd : ((bfillStep year first (first :: rest)).map Prod.fst).Nodup
        · rw [if_neg (not_not_intro hnd), if_pos htx]
          rfl
        · rw [if_pos hnd]
          rfl
  · intro file year e h
    rw [h]
    rfl
  · intro file year out h
    rw [h]
    rfl

/-- Witness for C8 at concrete 2020 failing inputs and one succeeding
input. -/
theorem errors_propagate_samples :
    run none 2020 = .error .fileMissing
    ∧ run (some sampleNoYearCol) 2020 = .error .missingColumn
    ∧ run (some sampleBadDate) 2020 = .error .badDate
    ∧ (run (some sampleTextCell) 2020).isOk = false
    ∧ filesWritten (run (some sampleTable2020) 2022) = 0
    ∧ filesWritten (run (some sampleTable2020) 2020) = 1 :=
  ⟨(errors_propagate.1 2020).1,
   errors_propagate.2.1 sampleNoYearCol 2020 (by decide),
   errors_propagate.2.2.1 sampleBadDate 2020 (by decide) (by decide),
   errors_propagate.2.2.2.1 sampleTextCell 2020 (by decide),
   errors_propagate.2.2.2.2.1 (some sampleTable2020) 2022 .emptySlice (by decide),
   errors_propagate.2.2.2.2.2 (some sampleTable2020) 2020 sampleOut2020 (by decide)⟩

/-- Counterexample to C8 as stated: a 2020 input missing half-hour value
columns (only columns 1 and 2 are present, 3..48 are absent) is not
rejected — the run succeeds and writes its one output file. -/
theorem missing_value_column_succeeds :
    sampleTwoCols.valueCols = [1, 2]
    ∧ (run (some sampleTwoCols) 2020).isOk = true
    ∧ filesWritten (run (some sampleTwoCols) 2020) = 1 := by
  refine ⟨rfl, by decide, by decide⟩

/-- Counterexample to C5 as stated: the script's `-year` argument is
declared with `required=True`, and invoking it with `-year` omitted aborts
argument parsing instead of running without a year filter. -/
theorem year_required_counterexample :
    yearArg.required = true
    ∧ parseArgs [("-path", "trace.csv")]
        = .error "the following arguments are required: -year" :=
  ⟨rfl, rfl⟩

/-- C5 (amended): the `-year` argument is required — the parser never
succeeds on a command line that omits it, so no run of this script skips
the year filtering (there is no optional-year variant in the source). -/
theorem year_always_required :
    yearArg.required = true
    ∧ ∀ (argv : List (String × String)) (a : ParsedArgs),
        lookupArg "-year" argv = none → parseArgs argv ≠ .ok a := by
  refine ⟨rfl, ?_⟩
  intro argv a hnone hok
  unfold parseArgs at hok
  split at hok
  · cases hok
  · split at hok
    · cases hok
    · rename_i s hs
      rw [show yearArg.name = "-year" from rfl, hnone] at hs
      cases hs

/-- Witness for C5 on a command line carrying only `-path`. -/
theorem year_always_required_sample :
    yearArg.required = true
    ∧ parseArgs [("-path", "t.csv")] ≠ .ok ⟨"t.csv", 0⟩ :=
  ⟨year_always_required.1,
   year_always_required.2 [("-path", "t.csv")] ⟨"t.csv", 0⟩ (by decide)⟩

/-- C3: every row of the final output falls inside the inclusive window
from `{year}-01-01 00:05:00` to `{year+1}-01-01 00:00:00`; the resample
never extends the series beyond its first and last existing timestamps. -/
theorem output_within_window (tbl : RawTable) (year : Nat)
    (out : List (Int × Option ℚ)) (hrun : run (some tbl) year = .ok out) :
    ∀ p ∈ out, windowStart year ≤ p.1 ∧ p.1 ≤ windowEnd year := by
  obtain ⟨dated, first, rest, hload, hwin, hnd, htx, hout⟩ := run_eq_ok hrun
  intro p hp
  have hmemw : ∀ q ∈ (first :: rest),
      windowStart year ≤ q.1 ∧ q.1 ≤ windowEnd year := by
    intro q hq
    have hq' : q ∈ windowOf dated year := by
      rw [hwin]
      exact hq
    exact ⟨(mem_windowOf hq').2.1, (mem_windowOf hq').2.2⟩
  have hfirstw := hmemw first (List.mem_cons_self _ _)
  have hpb : ∀ q ∈ bfillStep year first (first :: rest),
      windowStart year ≤ q.1 ∧ q.1 ≤ windowEnd year := by
    intro q hq
    rcases mem_bfillStep hq with hb | hw
    · obtain ⟨h1, h2, -⟩ := mem_mkBfill hb
      exact ⟨h1, by omega⟩
    · exact hmemw q hw
  have hpne : bfillStep year first (first :: rest) ≠ [] := by
    unfold bfillStep
    split
    · simp
    · simp
  cases hp2 : bfillStep year first (first :: rest) with
  | nil => exact absurd hp2 hpne
  | cons h0 t0 =>
      have hfst : out.map Prod.fst = dateRange h0.1 (lastT (h0 :: t0)) := by
        rw [hout, map_fst_interpolate, List.map_map]
        have hcomp : (Prod.fst ∘ fun p : Int × Option Cell =>
            (p.1, p.2.map cellToRat)) = Prod.fst := rfl
        rw [hcomp, hp2, map_fst_asfreq]
      have hp1 : p.1 ∈ dateRange h0.1 (lastT (h0 :: t0)) := by
        rw [← hfst]
        exact List.mem_map_of_mem Prod.fst hp
      obtain ⟨hge, hle⟩ := mem_dateRange hp1
      have hh0 : windowStart year ≤ h0.1 :=
        (hpb h0 (by rw [hp2]; exact List.mem_cons_self _ _)).1
      obtain ⟨q, hqmem, hq⟩ := lastT_mem (l := h0 :: t0) (List.cons_ne_nil _ _)
      have hqw := hpb q (by rw [hp2]; exact hqmem)
      exact ⟨by omega, by omega⟩

/-- The full output of `run` on `sampleTable` for year 2 (back-fill rows at
00:05–00:25 followed by the real 00:30 sample). -/
def sampleOut : List (Int × Option ℚ) :=
  [(1052645, some 10), (1052650, some 10), (1052655, some 10),
   (1052660, some 10), (1052665, some 10), (1052670, some 10)]

/-- Witness for C3 at the first output row of the `sampleTable` run. -/
theorem output_within_window_sample :
    windowStart 2 ≤ (1052645 : Int) ∧ (1052645 : Int) ≤ windowEnd 2 :=
  output_within_window sampleTable 2 sampleOut (by decide)
    (1052645, some 10) (by decide)

/-- Positions whose value is already present are returned unchanged by
`interpolate`, so a fully known prefix survives as-is. -/
theorem interpolate_take_of_known {xs : List (Int × Option ℚ)} {n : Nat}
    {T : Nat → Int} {v : ℚ}
    (hn : n ≤ xs.length)
    (hk : ∀ k < n, xs.get? k = some (T k, some v)) :
    (interpolate xs).take n = (List.range n).map (fun k => (T k, some v)) := by
  apply List.ext
  intro i
  by_cases hi : i < n
  · rw [List.get?_take hi, interpolate_get? (lt_of_lt_of_le hi hn)]
    have hx := hk i hi
    have hfst : (xs.getD i (0, none)).1 = T i := by
      rw [List.getD_eq_get?, hx]
      rfl
    have hsnd : (xs.map Prod.snd).get? i = some (some v) := by
      rw [List.get?_map, hx]
      rfl
    rw [hfst, interpAt_known hsnd, List.get?_map, List.get?_range hi]
    rfl
  · have h1 : ((interpolate xs).take n).get? i = none := by
      rw [List.get?_eq_none, List.length_take, length_interpolate]
      omega
    have h2 : ((List.range n).map (fun k => (T k, some v))).get? i = none := by
      rw [List.get?_eq_none, List.length_map, List.length_range]
      omega
    rw [h1, h2]

/-- C2: whenever the filtered series is non-empty and its first timestamp's
minute component differs from 5, the output starts with the synthesized
5-minute-spaced back-fill rows running from `{year}-01-01 00:05:00` to
(first timestamp − 5 minutes), each carrying the first real row's `gen_mw`
value unchanged (constant back-fill, not interpolated). -/
theorem backfill_prefix (tbl : RawTable) (year : Nat) (dated : DatedTable)
    (first : Int × Cell) (rest : List (Int × Cell)) (out : List (Int × Option ℚ))
    (hload : loadStage tbl = .ok dated)
    (hwin : windowOf dated year = first :: rest)
    (hmin : first.1 % 60 ≠ 5)
    (hrun : run (some tbl) year = .ok out) :
    out.take (mkBfill year first).length
      = (dateRange (windowStart year) (first.1 - 5)).map
          (fun t => (t, some (cellToRat first.2))) := by
  obtain ⟨dated', first', rest', hload', hwin', hnd, htx, hout⟩ := run_eq_ok hrun
  rw [hload] at hload'
  injection hload' with hD
  subst hD
  rw [hwin] at hwin'
  injection hwin' with h1 h2
  subst h1
  subst h2
  have hstep : bfillStep year first (first :: rest)
      = mkBfill year first ++ (first :: rest) := by
    unfold bfillStep
    rw [if_pos hmin]
  have hfmem : first ∈ windowOf dated year := by
    rw [hwin]
    exact List.mem_cons_self _ _
  obtain ⟨hdvd, hge, hle⟩ := mem_windowOf hfmem
  obtain ⟨h25, hdvd5⟩ := bfill_arith hdvd hge
  -- abbreviations
  have hnen : (mkBfill year first).length
      = ((first.1 - 5 - windowStart year) / 5).toNat + 1 := by
    unfold mkBfill
    rw [List.length_map, length_dateRange, if_neg (by omega)]
  -- division facts
  have e1 : 5 * ((first.1 - 5 - windowStart year) / 5)
      + (first.1 - 5 - windowStart year) % 5 = first.1 - 5 - windowStart year :=
    Int.ediv_add_emod _ 5
  have e1a : 0 ≤ (first.1 - 5 - windowStart year) % 5 :=
    Int.emod_nonneg _ (by norm_num)
  have e1b : (first.1 - 5 - windowStart year) % 5 < 5 :=
    Int.emod_lt_of_pos _ (by norm_num)
  have hLeq : lastT (mkBfill year first ++ (first :: rest))
      = lastT (first :: rest) := lastT_append_right _ (List.cons_ne_nil _ _)
  have hsortw : (first :: rest).Pairwise (fun p q => p.1 ≤ q.1) := by
    rw [← hwin]
    exact pairwise_windowOf dated year
  have hLge : first.1 ≤ lastT (first :: rest) :=
    le_lastT hsortw (List.mem_cons_self _ _)
  have e2 : 5 * ((lastT (first :: rest) - windowStart year) / 5)
      + (lastT (first :: rest) - windowStart year) % 5
      = lastT (first :: rest) - windowStart year := Int.ediv_add_emod _ 5
  have e2a : 0 ≤ (lastT (first :: rest) - windowStart year) % 5 :=
    Int.emod_nonneg _ (by norm_num)
  have e2b : (lastT (first :: rest) - windowStart year) % 5 < 5 :=
    Int.emod_lt_of_pos _ (by norm_num)
  -- head of the concatenated series is (windowStart, first value)
  have hB0 : (mkBfill year first).get? 0 = some (windowStart year, first.2) := by
    unfold mkBfill
    rw [List.get?_map, dateRange_get? (k := 0) (by rw [if_neg (by omega)]; omega)]
    simp
  have hBpos : 0 < (mkBfill year first).length := by omega
  have hp20 : (mkBfill year first ++ (first :: rest)).get? 0
      = some (windowStart year, first.2) := by
    rw [List.get?_append hBpos]
    exact hB0
  obtain ⟨tl, htl⟩ : ∃ tl, mkBfill year first ++ (first :: rest)
      = (windowStart year, first.2) :: tl := by
    cases hc : mkBfill year first ++ (first :: rest) with
    | nil => rw [hc] at hp20; cases hp20
    | cons x t =>
        rw [hc] at hp20
        injection hp20 with hx
        exact ⟨t, by rw [hx]⟩
  -- the value looked up at each back-fill grid point is the first value
  have hlook : ∀ k : Nat, k < (mkBfill year first).length →
      lookupT (windowStart year + 5 * (k : Int))
        (mkBfill year first ++ (first :: rest)) = some first.2 := by
    intro k hkn
    apply lookupT_append_left
    unfold mkBfill
    apply lookupT_map_const
    apply mem_dateRange_of
    · omega
    · omega
    · exact ⟨(k : Int), by ring⟩
  -- each back-fill position of the resampled-and-mapped list is known
  have hk : ∀ k < (mkBfill year first).length,
      ((asfreq (mkBfill year first ++ (first :: rest))).map
          (fun p => (p.1, p.2.map cellToRat))).get? k
        = some (windowStart year + 5 * (k : Int), some (cellToRat first.2)) := by
    intro k hkn
    rw [List.get?_map, htl, asfreq_eq, List.get?_map]
    have hgrid : k < (if lastT ((windowStart year, first.2) :: tl)
        < (windowStart year, first.2).1 then 0
        else ((lastT ((windowStart year, first.2) :: tl)
          - (windowStart year, first.2).1) / 5).toNat + 1) := by
      have hlt : lastT ((windowStart year, first.2) :: tl)
          = lastT (first :: rest) := by
        rw [← htl]
        exact hLeq
      rw [hlt]
      rw [if_neg (by omega)]
      omega
    rw [dateRange_get? hgrid]
    have hlk := hlook k hkn
    rw [htl] at hlk
    simp only [Option.map_some']
    rw [hlk]
    rfl
  -- the grid is long enough
  have hlen : (mkBfill year first).length
      ≤ ((asfreq (mkBfill year first ++ (first :: rest))).map
          (fun p => (p.1, p.2.map cellToRat))).length := by
    rw [List.length_map, htl, asfreq_eq, List.length_map, length_dateRange]
    have hlt : lastT ((windowStart year, first.2) :: tl)
        = lastT (first :: rest) := by
      rw [← htl]
      exact hLeq
    rw [hlt]
    rw [if_neg (by omega)]
    omega
  have htake := interpolate_take_of_known hlen hk
  rw [hout, hstep, htake]
  unfold dateRange
  rw [if_neg (by omega), List.map_map, hnen]
  rfl

/-- Witness for C2 on the `sampleTable` run (back-fill 00:05–00:25 at the
first real value 10). -/
theorem backfill_prefix_sample :
    sampleOut.take (mkBfill 2 (1052670, Cell.num 10)).length
      = (dateRange (windowStart 2) ((1052670 : Int) - 5)).map
          (fun t => (t, some (cellToRat (Cell.num 10)))) :=
  backfill_prefix sampleTable 2 sampleDated (1052670, Cell.num 10) [] sampleOut
    (by decide) (by decide) (by decide) (by decide)

/-- C4: on a non-empty strictly sorted series whose timestamps lie on the
5-minute grid (as every series reaching this stage does), the
resample-and-interpolate step keeps every already-present sample unchanged,
produces exactly the 5-minute slots between the first and last existing
timestamps, and leaves every one of those slots populated. -/
theorem resample_preserves_and_fills (first : Int × ℚ) (rest : List (Int × ℚ))
    (hsorted : (first :: rest).Pairwise (fun p q => p.1 < q.1))
    (hmod : ∀ p ∈ first :: rest, (5 : Int) ∣ (p.1 - first.1)) :
    (∀ p ∈ first :: rest, (p.1, some p.2) ∈ interpolate (asfreq (first :: rest)))
    ∧ (∀ q ∈ interpolate (asfreq (first :: rest)), q.2.isSome = true)
    ∧ (interpolate (asfreq (first :: rest))).map Prod.fst
        = dateRange first.1 (lastT (first :: rest)) := by
  obtain ⟨ft, fv⟩ := first
  have hc : (interpolate (asfreq ((ft, fv) :: rest))).map Prod.fst
      = dateRange ft (lastT ((ft, fv) :: rest)) := by
    rw [map_fst_interpolate, map_fst_asfreq]
  have hdist : ((ft, fv) :: rest).Pairwise (fun p q => p.1 ≠ q.1) :=
    hsorted.imp (fun h => ne_of_lt h)
  have hsle : ((ft, fv) :: rest).Pairwise (fun p q => p.1 ≤ q.1) :=
    hsorted.imp (fun h => le_of_lt h)
  have hLge : ft ≤ lastT ((ft, fv) :: rest) :=
    le_lastT hsle (List.mem_cons_self _ _)
  obtain ⟨lastp, hlmem, hlfst⟩ :=
    lastT_mem (l := (ft, fv) :: rest) (List.cons_ne_nil _ _)
  obtain ⟨lt, lv⟩ := lastp
  simp only at hlfst
  subst hlfst
  set L := lastT ((ft, fv) :: rest) with hLdef
  have hldvd : (5 : Int) ∣ (L - ft) := hmod (L, lv) hlmem
  have e2 : 5 * ((L - ft) / 5) + (L - ft) % 5 = L - ft := Int.ediv_add_emod _ 5
  have e2a : 0 ≤ (L - ft) % 5 := Int.emod_nonneg _ (by norm_num)
  have e2b : (L - ft) % 5 < 5 := Int.emod_lt_of_pos _ (by norm_num)
  have hxs0 : (asfreq ((ft, fv) :: rest)).get? 0 = some (ft, some fv) := by
    rw [asfreq_eq, List.get?_map,
      dateRange_get? (k := 0) (by rw [if_neg (by omega)]; omega)]
    simp only [Option.map_some']
    have h0 : ft + 5 * ((0 : Nat) : Int) = ft := by norm_num
    rw [h0, lookupT_of_mem (List.mem_cons_self (ft, fv) rest) hdist]
  have hq2 : (L - ft) / 5 = ((L - ft) / 5).toNat := by
    have : 0 ≤ (L - ft) / 5 := Int.ediv_nonneg (by omega) (by norm_num)
    omega
  have hxsl : (asfreq ((ft, fv) :: rest)).get? (((L - ft) / 5).toNat)
      = some (L, some lv) := by
    rw [asfreq_eq, List.get?_map,
      dateRange_get? (by rw [if_neg (by omega)]; omega)]
    simp only [Option.map_some']
    have hLt : ft + 5 * ((((L - ft) / 5).toNat : Nat) : Int) = L := by
      obtain ⟨m, hm⟩ := hldvd
      have hdm : (L - ft) / 5 = m := by
        rw [hm]
        exact Int.mul_ediv_cancel_left m (by norm_num)
      omega
    rw [hLt, lookupT_of_mem hlmem hdist]
  have hlen : (asfreq ((ft, fv) :: rest)).length = ((L - ft) / 5).toNat + 1 := by
    rw [asfreq_eq, List.length_map, length_dateRange, if_neg (by omega)]
  refine ⟨?_, ?_, hc⟩
  · intro p hp
    have hple : p.1 ≤ L := le_lastT hsle hp
    have hpge : ft ≤ p.1 := by
      rcases List.mem_cons.mp hp with heq | hrest
      · rw [heq]
      · exact le_of_lt (List.rel_of_pairwise_cons hsorted hrest)
    obtain ⟨j, hj⟩ := hmod p hp
    have hjnn : 0 ≤ j := by omega
    have hgk : j.toNat < (if L < ft then 0 else ((L - ft) / 5).toNat + 1) := by
      rw [if_neg (by omega)]
      omega
    have hxs : (asfreq ((ft, fv) :: rest)).get? j.toNat = some (p.1, some p.2) := by
      rw [asfreq_eq, List.get?_map, dateRange_get? hgk]
      simp only [Option.map_some']
      have ht : ft + 5 * ((j.toNat : Nat) : Int) = p.1 := by omega
      rw [ht, lookupT_of_mem (t := p.1) (v := p.2) hp hdist]
    exact mem_interpolate_of_known hxs
  · intro q hq
    unfold interpolate at hq
    rcases List.mem_map.mp hq with ⟨i, hir, hqe⟩
    rw [List.mem_range] at hir
    have hvs0 : ((asfreq ((ft, fv) :: rest)).map Prod.snd).get? 0
        = some (some fv) := by
      rw [List.get?_map, hxs0]
      rfl
    have hvsl : ((asfreq ((ft, fv) :: rest)).map Prod.snd).get?
        (((asfreq ((ft, fv) :: rest)).map Prod.snd).length - 1)
        = some (some lv) := by
      rw [List.length_map, hlen]
      simp only [Nat.add_sub_cancel]
      rw [List.get?_map, hxsl]
      rfl
    have hilt : i < ((asfreq ((ft, fv) :: rest)).map Prod.snd).length := by
      rw [List.length_map]
      exact hir
    have hisome := interpAt_isSome hvs0 hvsl hilt
    rw [← hqe]
    exact hisome

/-- Witness for C4: the sample at timestamp 10 survives resampling and
interpolation of the two-point series `[(0, 3), (10, 7)]` unchanged. -/
theorem resample_preserves_and_fills_sample :
    ((10 : Int), some (7 : ℚ)) ∈
      interpolate (asfreq [((0 : Int), (3 : ℚ)), ((10 : Int), (7 : ℚ))]) :=
  (resample_preserves_and_fills (0, 3) [(10, 7)] (by decide) (by decide)).1
    (10, 7) (by decide)

end Convert
